import Mathlib

/-!
Verification development for the `superhero/router` event router
(`src/index.js`).  The router matches an incoming event against a table of
registered routes, accumulates parameters and middleware from every route
that matches, and executes the accumulated dispatcher chain with onion-style
re-entrant `next` semantics, cooperative abortion and per-handler error
recovery.

Shallow embedding notes:

* The specification calls the match-subject field `criteria`; the source code
  (`src/index.js`) names the same field `condition` (`route.condition`,
  `event.condition`).  The embedding follows the source and uses `condition`.
* JavaScript `RegExp` values produced by `#composeRouteRegExp` are modelled by
  a small regex AST (`RegexItem`) covering exactly the constructs the router
  emits: literal characters, the `.` metacharacter, one-or-more character
  classes `[...]+` / `[^...]+`, and named capture groups `(?<name>[^...]+)`.
  Matching is greedy with backtracking, like the JavaScript engine, and the
  compiled pattern is anchored (`^...$`), so matching is whole-string.
* Handlers (dispatchers / middlewares) are modelled as named programs over a
  small step language (`HStep`): perform an action (appending a label to an
  execution log), call `meta.chain.next()`, throw, or trigger the abortion
  controller.  The optional `onError` member is a second program which can
  observe the caught error.  The chain executor (`#dispatchChain`,
  `#dispatchChainNext`, `#dispatchDispatcher`) is embedded as a fuel-indexed
  interpreter `run`; fuel bounds the recursion depth and `none` means the
  fuel ran out (the JavaScript recursion is finite on every input the
  theorems mention).
-/

/-! ## Regex model for the patterns emitted by `#composeRouteRegExp` -/

/-- Atoms of the regular expressions the router builds.  `clsPlus neg cs`
is `[cs]+` (or `[^cs]+` when `neg` is true); `group nm cs` is the named
capture `(?<nm>[^cs]+)`; `anyChar` is the unescaped `.` metacharacter. -/
inductive RegexItem where
  | lit (c : Char)
  | anyChar
  | clsPlus (neg : Bool) (cs : List Char)
  | group (name : String) (cs : List Char)
deriving DecidableEq, Repr

/-- Membership test of a character in a (possibly negated) character class. -/
def clsMem (neg : Bool) (cs : List Char) (c : Char) : Bool :=
  if neg then !(cs.contains c) else cs.contains c

/-- Captured named groups, in group order. -/
abbrev Caps := List (String × String)

/-- First `some` produced by `f` over the list, in order. -/
def firstSome : List α → (α → Option β) → Option β
  | [], _ => none
  | a :: as, f =>
    match f a with
    | some b => some b
    | none => firstSome as f

/-- Candidate lengths `[n, n-1, ..., 1]` for a greedy one-or-more item. -/
def greedyLens (n : Nat) : List Nat :=
  (List.range n).map (fun i => n - i)

/-- Anchored matching of an item sequence against a character list, greedy
with backtracking exactly like the JavaScript regex engine on the fragment
the router emits.  Returns the named captures on success. -/
def reMatch : List RegexItem → List Char → Option Caps
  | [], [] => some []
  | [], _ :: _ => none
  | .lit _ :: _, [] => none
  | .lit c :: rest, x :: s => if x = c then reMatch rest s else none
  | .anyChar :: _, [] => none
  | .anyChar :: rest, _ :: s => reMatch rest s
  | .clsPlus neg cs :: rest, s =>
    firstSome (greedyLens s.length) (fun n =>
      if (s.take n).all (clsMem neg cs) then reMatch rest (s.drop n) else none)
  | .group nm cs :: rest, s =>
    firstSome (greedyLens s.length) (fun n =>
      if (s.take n).all (clsMem true cs) then
        (reMatch rest (s.drop n)).map (fun caps => (nm, String.mk (s.take n)) :: caps)
      else none)

/-! ## Pattern compilation (`#composeRouteRegExp`, `#mapRouteRegExpArgs`) -/

/-- `condition.split(new RegExp(`[seps]+`))`: split on runs of separator
characters, keeping empty segments at the start and end, as
`String.prototype.split` does.  `skip` is true directly after a separator
run; `cur` holds the current segment reversed. -/
def splitSegsAux (isSep : Char → Bool) : Bool → List Char → List Char → List (List Char)
  | skip, cur, [] => if skip then [[]] else [cur.reverse]
  | skip, cur, c :: rest =>
    if isSep c then
      if skip then splitSegsAux isSep true [] rest
      else cur.reverse :: splitSegsAux isSep true [] rest
    else splitSegsAux isSep false (c :: cur) rest

/-- Split a condition string into segments on runs of separators. -/
def splitSegs (seps : List Char) (s : List Char) : List (List Char) :=
  splitSegsAux (fun c => seps.contains c) false [] s

/-- Interpretation of one raw (unescaped) character of a wildcard segment in
the produced regex source: `*` was replaced by `[^seps]+`; every other
character is inserted verbatim mid-segment, so the `.` metacharacter keeps
its regex meaning (any character).  Remaining characters of the fragment the
router emits are literal. -/
def wildcardItem (seps : List Char) (c : Char) : RegexItem :=
  if c = '*' then .clsPlus true seps
  else if c = '.' then .anyChar
  else .lit c

/-- `#mapRouteRegExpArgs(separators, segment)`:
a segment starting with `:` becomes the named capture `(?<name>[^seps]+)`;
a segment containing `*` has each `*` replaced by `[^seps]+` with the other
characters inserted unescaped (`wildcardItem`); any other segment is escaped
and therefore matched literally. -/
def mapRouteRegExpArgs (seps : List Char) (segment : List Char) : List RegexItem :=
  match segment with
  | ':' :: nameRest => [.group (String.mk nameRest) seps]
  | _ =>
    if segment.contains '*' then segment.map (wildcardItem seps)
    else segment.map .lit

/-- Variant of `mapRouteRegExpArgs` modelled from the words of the
specification, for comparison only: in a wildcard segment, all characters
other than `*` are claimed to be escaped and matched literally. -/
def mapRouteRegExpArgsSpecEscaped (seps : List Char) (segment : List Char) : List RegexItem :=
  match segment with
  | ':' :: nameRest => [.group (String.mk nameRest) seps]
  | _ =>
    if segment.contains '*' then
      segment.map (fun c => if c = '*' then .clsPlus true seps else .lit c)
    else segment.map .lit

/-- `#composeRouteRegExp(condition, separators)`: split on separator runs,
map each segment, join the mapped segments with `[seps]+` and anchor the
whole pattern.  `separators` defaults to `"/"`. -/
def composeRouteRegExp (condition : String) (separators : Option String) : List RegexItem :=
  let seps := (separators.getD "/").data
  let segments := splitSegs seps condition.data
  List.intercalate [RegexItem.clsPlus false seps] (segments.map (mapRouteRegExpArgs seps))

/-- The spec-worded variant of `composeRouteRegExp` (escaped wildcard
segments), for comparison only. -/
def composeRouteRegExpSpecEscaped (condition : String) (separators : Option String) : List RegexItem :=
  let seps := (separators.getD "/").data
  let segments := splitSegs seps condition.data
  List.intercalate [RegexItem.clsPlus false seps] (segments.map (mapRouteRegExpArgsSpecEscaped seps))

/-! ## Handlers and the dispatcher-chain executor -/

/-- One step of a handler program: append a label to the execution log,
call `meta.chain.next()`, throw an error, set the abortion flag
(`meta.abortion.abort()`), or (inside `onError`) log the caught error. -/
inductive HStep where
  | act (label : String)
  | next
  | fail (msg : String)
  | abortSig
  | logError
deriving DecidableEq, Repr

/-- A handler capability object: a `dispatch` program and an optional
`onError` program.  `name` stands for the object identity and is recorded
when `dispatch` is invoked. -/
structure Handler where
  name : String
  steps : List HStep
  onError : Option (List HStep)
deriving DecidableEq, Repr

/-- The state threaded through one chain execution: the action log, the
names of handlers whose `dispatch` was invoked (in invocation order), the
remaining elements of the shared `meta.chain.iterator`, the abortion flag
`meta.abortion.signal.aborted`, and `meta.chain.index`. -/
structure DState where
  log : List String
  called : List String
  queue : List Handler
  aborted : Bool
  idx : Nat
deriving DecidableEq, Repr

/-- The three mutually recursive activities of the chain executor:
`#dispatchChainNext`, `#dispatchDispatcher`, and running the remaining
steps of a handler program (with the caught error in scope for
`onError`). -/
inductive ChainTask where
  | next
  | disp (h : Handler)
  | steps (ps : List HStep) (err : String)
deriving Repr

/-- Fuel-indexed interpreter of the chain executor.  Returns `none` when
the fuel (a recursion-depth bound) runs out, otherwise the final state and
`some e` when the activity threw error `e`.

* `.next` mirrors `#dispatchChainNext`: pull the next element from the
  shared iterator; if there is one and the abortion flag is unset, run
  `#dispatchDispatcher` on it and then re-invoke `#dispatchChainNext` (the
  do-while loop body runs once because the recursive call returns
  `undefined`, a falsy value).
* `.disp h` mirrors `#dispatchDispatcher`: skip silently when aborted;
  otherwise increment `meta.chain.index`, record the invocation, run the
  handler program and, if it throws, run `onError` when declared or
  propagate the error otherwise.
* `.steps` runs the remaining steps of a handler program; a `.next` step
  re-enters the chain executor on the same shared state. -/
def run : Nat → ChainTask → DState → Option (DState × Option String)
  | 0, _, _ => none
  | f + 1, .next, st =>
    match st.queue with
    | [] => some (st, none)
    | h :: rest =>
      let st1 := { st with queue := rest }
      if st1.aborted then some (st1, none)
      else
        match run f (.disp h) st1 with
        | none => none
        | some (st2, some e) => some (st2, some e)
        | some (st2, none) => run f .next st2
  | f + 1, .disp h, st =>
    if st.aborted then some (st, none)
    else
      let st1 := { st with idx := st.idx + 1, called := st.called ++ [h.name] }
      match run f (.steps h.steps "") st1 with
      | none => none
      | some (st2, none) => some (st2, none)
      | some (st2, some e) =>
        match h.onError with
        | some prog => run f (.steps prog e) st2
        | none => some (st2, some e)
  | _ + 1, .steps [] _, st => some (st, none)
  | f + 1, .steps (p :: rest) err, st =>
    match p with
    | .act l => run f (.steps rest err) { st with log := st.log ++ [l] }
    | .logError => run f (.steps rest err) { st with log := st.log ++ [err] }
    | .abortSig => run f (.steps rest err) { st with aborted := true }
    | .fail m => some (st, some m)
    | .next =>
      match run f .next st with
      | none => none
      | some (st1, some e) => some (st1, some e)
      | some (st1, none) => run f (.steps rest err) st1

/-! ## Route records and the route table -/

/-- A caller event: the `condition` string matched against routes and the
`param` bag populated with captured named groups (an association list,
empty when `event.param` is absent). -/
structure Event where
  condition : String
  param : List (String × String)
deriving DecidableEq, Repr

/-- A stored route record after `set` normalized it: the `condition`
string, the `conditions` predicate capabilities (each `isValid(event,
route)`, modelled as predicates on the event), the normalized `middlewares`
list and the optional terminal `dispatcher`. -/
structure RouteRec where
  condition : String
  conditions : List (Event → Bool)
  middlewares : List Handler
  dispatcher : Option Handler

/-- A route-table value: the cloned route record and the compiled regex. -/
structure RouteEntry where
  route : RouteRec
  regexp : List RegexItem

/-- The router is a `Map` from route id to entry; iteration order is
insertion order, so the table is an association list. -/
abbrev RouteTable := List (String × RouteEntry)

/-! ## `@superhero/deep/assign` array and object merge semantics -/

/-- `#assignArray(a, b)` builds `new Set(a.concat(b))`: the concatenation
deduplicated keeping first occurrences.  JavaScript deduplicates by object
identity; handlers are compared structurally here, which coincides for the
scenarios of this development because distinct handlers carry distinct
names. -/
def assignArray [DecidableEq α] (a b : List α) : List α :=
  (a ++ b).foldl (fun acc x => if x ∈ acc then acc else acc ++ [x]) []

/-- Merging one captured named group into `event.param`: an existing key is
overwritten in place, a new key is appended. -/
def upsertParam (m : List (String × String)) (kv : String × String) : List (String × String) :=
  if m.any (fun p => p.1 == kv.1) then
    m.map (fun p => if p.1 == kv.1 then kv else p)
  else m ++ [kv]

/-- `deepassign(event, { param })`: merge all captured groups into the
param bag, later captures overwriting same-named earlier ones. -/
def mergeParams (m : List (String × String)) (caps : Caps) : List (String × String) :=
  caps.foldl upsertParam m

/-! ## The match accumulator (`dispatch`, lines 99-114) -/

/-- The accumulated `meta.route` scratch space: deduplicating merge of the
middlewares of every matched route, the first terminal dispatcher, and the
trace of matched route ids (`none` models an absent `meta.route.trace`, the
state before any route matched). -/
structure MetaAcc where
  middlewares : List Handler
  dispatcher : Option Handler
  trace : Option (List String)
deriving DecidableEq, Repr

/-- `deepassign(meta, { route }, { route: { trace: [id] } })` for one fully
matched route: middlewares merge with deduplication, a defined dispatcher
overwrites (an `undefined` one does not), and the id is appended to the
trace. -/
def accumulateRoute (m : MetaAcc) (id : String) (r : RouteRec) : MetaAcc :=
  { middlewares := assignArray m.middlewares r.middlewares
    dispatcher := match r.dispatcher with | some d => some d | none => m.dispatcher
    trace := some (match m.trace with | some t => assignArray t [id] | none => [id]) }

/-- The `for(const [id, { route, regexp }] of this.entries())` loop of
`dispatch`: test every route in insertion order; on a full match (regexp
and all `conditions` predicates) merge the captures into `event.param` and
the route into `meta.route`, and stop at the first route that carries a
dispatcher. -/
def matchLoop : RouteTable → Event → MetaAcc → Event × MetaAcc
  | [], ev, m => (ev, m)
  | (id, e) :: rest, ev, m =>
    match reMatch e.regexp ev.condition.data with
    | some caps =>
      if e.route.conditions.all (fun c => c ev) then
        let ev1 := { ev with param := mergeParams ev.param caps }
        let m1 := accumulateRoute m id e.route
        if e.route.dispatcher.isSome then (ev1, m1) else matchLoop rest ev1 m1
      else matchLoop rest ev m
    | none => matchLoop rest ev m

/-! ## Meta normalization and the dispatch entry point -/

/-- The `meta.abortion` field as supplied by the caller: absent (a fresh
`AbortController` is created), a well-shaped controller with its current
`aborted` flag, or a value of the wrong shape (its `toString` type tag). -/
inductive AbortionField where
  | absent
  | controller (aborted : Bool)
  | malformed (typeName : String)
deriving DecidableEq, Repr

/-- `#normalizeMeta`, restricted to the abortion field: a missing
controller is created unaborted; anything that is not an `AbortController`
throws the `E_ROUTER_INVALID_META_ABORTION_TYPE` TypeError, modelled as
`none`. -/
def normalizeMetaAbortion : AbortionField → Option Bool
  | .absent => some false
  | .controller b => some b
  | .malformed _ => none

/-- Cause recorded on the `E_ROUTER_DISPATCH_NO_DISPATCHER` error: either
the trace of the matched non-terminal routes or a note that no route
matched. -/
inductive NoDispCause where
  | matchedTrace (trace : List String)
  | noneMatched
deriving DecidableEq, Repr

/-- Cause wrapped by the `E_ROUTER_DISPATCH_FAILED` rejection. -/
inductive DispatchCause where
  | noDispatcher (c : NoDispCause)
  | thrown (msg : String)
deriving DecidableEq, Repr

/-- Outcome of the promise returned by `dispatch`:

* `resolved`: the promise resolves with the meta (final event, accumulated
  route view, final chain state);
* `rejected`: the promise rejects with an `E_ROUTER_DISPATCH_FAILED` error
  wrapping `cause`; `called` and `log` record how far the chain ran;
* `hung`: the error thrown by `#normalizeMeta` escapes the `async` promise
  executor outside the try/catch (src/index.js line 95 precedes the `try`
  on line 97), so the promise never settles; the argument records the type
  tag of the malformed abortion value carried by the unhandled
  `E_ROUTER_INVALID_META_ABORTION_TYPE` error. -/
inductive DispatchOutcome where
  | resolved (ev : Event) (acc : MetaAcc) (final : DState)
  | rejected (cause : DispatchCause) (called : List String) (log : List String)
  | hung (abortionTypeName : String)
deriving DecidableEq, Repr

/-- `dispatch(event, meta)` with the given fuel for the chain executor
(`none` means the fuel ran out).  Mirrors src/index.js lines 91-157: meta
normalization (outside the try), the match loop, the `NoDispatcher` check,
the chain construction `middlewares.concat(dispatcher)` and the initial
`#dispatchChainNext` call, with every error raised inside the try wrapped
in an `E_ROUTER_DISPATCH_FAILED` rejection. -/
def routerDispatch (tbl : RouteTable) (ev : Event) (abortion : AbortionField)
    (fuel : Nat) : Option DispatchOutcome :=
  match abortion, normalizeMetaAbortion abortion with
  | .malformed t, _ => some (.hung t)
  | _, none => some (.hung "")
  | _, some aborted0 =>
    let (ev1, acc) := matchLoop tbl ev ⟨[], none, none⟩
    match acc.dispatcher with
    | none =>
      some (.rejected (.noDispatcher (match acc.trace with
        | some t => .matchedTrace t
        | none => .noneMatched)) [] [])
    | some d =>
      let st0 : DState := ⟨[], [], acc.middlewares ++ [d], aborted0, 0⟩
      match run fuel .next st0 with
      | none => none
      | some (st, none) => some (.resolved ev1 acc st)
      | some (st, some e) => some (.rejected (.thrown e) st.called st.log)

/-! ## Route registration (`set`, lines 39-82) -/

/-- The `condition` property of a route config: a string, or a value of
another type (its type tag). -/
inductive CondField where
  | str (s : String)
  | nonString (typeName : String)

/-- A route config record as passed to `set`, after the middleware and
dispatcher references have been resolved to capability objects (the
embedding does not model the service locator; string references resolve
through it at registration time).  `separators` collapses the
`route.separators ?? route.separator` pair of the source. -/
structure RouteCfg where
  condition : CondField
  middleware : List Handler
  dispatcher : Option Handler
  conditions : List (Event → Bool)
  separators : Option String

/-- The `route` argument of `set`: the sentinel `false`, a non-record value
(its type tag), or a route config record. -/
inductive SetInput where
  | falseVal
  | nonObject (typeName : String)
  | obj (cfg : RouteCfg)

/-- The only error `set` throws in this model: `E_ROUTER_INVALID_ROUTE`
(covering the duplicate-id, non-record and non-string-condition cases). -/
inductive RouterErr where
  | invalidRoute
deriving DecidableEq, Repr

/-- `set(id, route, separators)` returning the updated table and the thrown
error, if any.  Mirrors the source order: the `false` sentinel deletes the
id and returns; then the duplicate-id check, the record-type check and the
condition-type check each throw `E_ROUTER_INVALID_ROUTE`; all throws happen
before the table is touched, and on success the entry is appended (`Map`
insertion order). -/
def routerSet (tbl : RouteTable) (id : String) (input : SetInput)
    (separators : Option String) : RouteTable × Option RouterErr :=
  match input with
  | .falseVal => (tbl.filter (fun p => !(p.1 == id)), none)
  | .nonObject _ =>
    (tbl, some .invalidRoute)
  | .obj cfg =>
    if tbl.any (fun p => p.1 == id) then (tbl, some .invalidRoute)
    else
      match cfg.condition with
      | .nonString _ => (tbl, some .invalidRoute)
      | .str cond =>
        let route : RouteRec := ⟨cond, cfg.conditions, cfg.middleware, cfg.dispatcher⟩
        let regexp := composeRouteRegExp cond (cfg.separators.orElse (fun _ => separators))
        (tbl ++ [(id, ⟨route, regexp⟩)], none)

/-- Was the `set` input a record with a string condition (the shape the
specification calls a record with a string criteria)? -/
def wellFormedInput : SetInput → Bool
  | .obj cfg =>
    match cfg.condition with
    | .str _ => true
    | .nonString _ => false
  | _ => false

/-! ## Simple handlers and parametric chain scenarios -/

/-- A handler whose dispatch only performs the given actions: it neither
calls `next`, nor throws, nor aborts, and declares no `onError`. -/
def simpleH (n : String) (ls : List String) : Handler :=
  ⟨n, ls.map .act, none⟩

/-- A list of simple handlers from (name, action labels) pairs. -/
def simpleHs (ds : List (String × List String)) : List Handler :=
  ds.map (fun p => simpleH p.1 p.2)

/-- All action labels of a simple-handler list, in execution order. -/
def labelsOf (ds : List (String × List String)) : List String :=
  (ds.map Prod.snd).flatten

/-- The handler names of a simple-handler list, in order. -/
def namesOf (ds : List (String × List String)) : List String :=
  ds.map Prod.fst

/-- Fuel bound sufficient to drain a queue of simple handlers. -/
def costOf (ds : List (String × List String)) : Nat :=
  ds.foldr (fun p a => p.2.length + 3 + a) 0

/-- Handler names a `run` activity may add to `called` when it consumes a
given segment of the queue: `#dispatchDispatcher` may additionally record
its own handler. -/
def consumeAllowed : ChainTask → List Handler → List String
  | .disp h, q => h.name :: q.map Handler.name
  | _, q => q.map Handler.name

/-! ## Concrete scenarios used by the theorems -/

/-- Middleware M1 of the two-route scenario: logs and records `"M1"`. -/
def hM1 : Handler := ⟨"M1", [.act "M1"], none⟩

/-- Terminal dispatcher D: logs and records `"D"`. -/
def hD : Handler := ⟨"D", [.act "D"], none⟩

/-- Route table with R1 = `/*/*` (middleware M1, no dispatcher) registered
first and R2 = `/test/123` (dispatcher D) registered second. -/
def c1Table : RouteTable :=
  (routerSet (routerSet [] "R1" (.obj ⟨.str "/*/*", [hM1], none, [], none⟩) none).1
    "R2" (.obj ⟨.str "/test/123", [], some hD, [], none⟩) none).1

/-- Middleware of the parameter-capture scenario. -/
def hMa : Handler := ⟨"Ma", [.act "Ma"], none⟩

/-- Second middleware of the parameter-capture scenario. -/
def hMb : Handler := ⟨"Mb", [.act "Mb"], none⟩

/-- Route table for the parameter-overwrite scenario: `/u/:id` (captures
id := "42"), then `/:id/42` (captures id := "u", overwriting), then the
terminal `/u/42`. -/
def c7Table : RouteTable :=
  (routerSet (routerSet (routerSet [] "Ra" (.obj ⟨.str "/u/:id", [hMa], none, [], none⟩) none).1
    "Rb" (.obj ⟨.str "/:id/42", [hMb], none, [], none⟩) none).1
    "Rc" (.obj ⟨.str "/u/42", [], some hD, [], none⟩) none).1

/-- A dispatcher that throws `"boom"` and recovers in `onError`, which logs
the caught error. -/
def hBoomRec : Handler := ⟨"HB", [.fail "boom"], some [.logError]⟩

/-- A dispatcher that throws `"boom"` and declares no `onError`. -/
def hBoom : Handler := ⟨"HB", [.fail "boom"], none⟩

/-- One-route table whose dispatcher throws but recovers via `onError`. -/
def c3TableA : RouteTable :=
  (routerSet [] "T" (.obj ⟨.str "/t", [], some hBoomRec, [], none⟩) none).1

/-- One-route table whose dispatcher throws with no `onError`. -/
def c3TableB : RouteTable :=
  (routerSet [] "T" (.obj ⟨.str "/t", [], some hBoom, [], none⟩) none).1

/-- Table whose routes `/*` and `/:x` both match `/q` but neither carries a
dispatcher. -/
def c4Table : RouteTable :=
  (routerSet (routerSet [] "A" (.obj ⟨.str "/*", [hM1], none, [], none⟩) none).1
    "B" (.obj ⟨.str "/:x", [], none, [], none⟩) none).1

/-- A middleware that calls `meta.chain.next()` between two of its own
actions, deferring its second action until the downstream chain completed. -/
def hDown : Handler := ⟨"Down", [.act "down-pre", .next, .act "down-post"], none⟩

/-- One-route table whose chain is the re-entrant middleware followed by a
plain middleware and the terminal dispatcher. -/
def c2Table : RouteTable :=
  (routerSet [] "T" (.obj ⟨.str "/t", [hDown, hM1], some hD, [], none⟩) none).1

/-! ## Single-step unfolding equations of the chain interpreter -/

/-- `#dispatchChainNext` with an exhausted iterator returns at once. -/
theorem run_next_nil (f : Nat) (lg cl : List String) (ab : Bool) (ix : Nat) :
    run (f + 1) .next ⟨lg, cl, [], ab, ix⟩ = some (⟨lg, cl, [], ab, ix⟩, none) := rfl

/-- `#dispatchChainNext` pulls the next handler off the shared iterator,
then either stops (abortion flag) or dispatches it and recurses. -/
theorem run_next_cons (f : Nat) (lg cl : List String) (h : Handler) (rest : List Handler)
    (ab : Bool) (ix : Nat) :
    run (f + 1) .next ⟨lg, cl, h :: rest, ab, ix⟩ =
      if ab then some (⟨lg, cl, rest, ab, ix⟩, none)
      else
        match run f (.disp h) ⟨lg, cl, rest, ab, ix⟩ with
        | none => none
        | some (st2, some e) => some (st2, some e)
        | some (st2, none) => run f .next st2 := by
  cases ab <;> rfl

/-- `#dispatchDispatcher`: skip when aborted, otherwise advance the index,
record the invocation, run the handler program and apply the `onError`
recovery policy. -/
theorem run_disp_eq (f : Nat) (h : Handler) (lg cl : List String) (q : List Handler)
    (ab : Bool) (ix : Nat) :
    run (f + 1) (.disp h) ⟨lg, cl, q, ab, ix⟩ =
      if ab then some (⟨lg, cl, q, ab, ix⟩, none)
      else
        match run f (.steps h.steps "") ⟨lg, cl ++ [h.name], q, ab, ix + 1⟩ with
        | none => none
        | some (st2, none) => some (st2, none)
        | some (st2, some e) =>
          match h.onError with
          | some prog => run f (.steps prog e) st2
          | none => some (st2, some e) := by
  cases ab <;> rfl

/-- An exhausted handler program returns normally. -/
theorem run_steps_nil (f : Nat) (err : String) (st : DState) :
    run (f + 1) (.steps [] err) st = some (st, none) := rfl

/-- An action step appends its label to the log. -/
theorem run_steps_act (f : Nat) (l : String) (rest : List HStep) (err : String)
    (lg cl : List String) (q : List Handler) (ab : Bool) (ix : Nat) :
    run (f + 1) (.steps (.act l :: rest) err) ⟨lg, cl, q, ab, ix⟩ =
      run f (.steps rest err) ⟨lg ++ [l], cl, q, ab, ix⟩ := rfl

/-- The `onError` step that logs the caught error. -/
theorem run_steps_logError (f : Nat) (rest : List HStep) (err : String)
    (lg cl : List String) (q : List Handler) (ab : Bool) (ix : Nat) :
    run (f + 1) (.steps (.logError :: rest) err) ⟨lg, cl, q, ab, ix⟩ =
      run f (.steps rest err) ⟨lg ++ [err], cl, q, ab, ix⟩ := rfl

/-- Triggering the abortion controller sets the flag; the handler program
continues with its remaining steps. -/
theorem run_steps_abortSig (f : Nat) (rest : List HStep) (err : String)
    (lg cl : List String) (q : List Handler) (ab : Bool) (ix : Nat) :
    run (f + 1) (.steps (.abortSig :: rest) err) ⟨lg, cl, q, ab, ix⟩ =
      run f (.steps rest err) ⟨lg, cl, q, true, ix⟩ := rfl

/-- A throwing step aborts the program with the thrown error. -/
theorem run_steps_fail (f : Nat) (m : String) (rest : List HStep) (err : String) (st : DState) :
    run (f + 1) (.steps (.fail m :: rest) err) st = some (st, some m) := rfl

/-- A `meta.chain.next()` call re-enters the chain executor and continues
with the remaining steps afterwards, propagating errors. -/
theorem run_steps_next (f : Nat) (rest : List HStep) (err : String) (st : DState) :
    run (f + 1) (.steps (.next :: rest) err) st =
      match run f .next st with
      | none => none
      | some (st1, some e) => some (st1, some e)
      | some (st1, none) => run f (.steps rest err) st1 := rfl

/-- One extra unit of fuel never changes a successful run. -/
theorem runSucc (f : Nat) : ∀ (t : ChainTask) (st : DState) (r : DState × Option String),
    run f t st = some r → run (f + 1) t st = some r := by
  induction f with
  | zero => intro t st r hr; simp [run] at hr
  | succ f ih =>
    intro t st r hr
    cases t with
    | next =>
      obtain ⟨lg, cl, q, ab, ix⟩ := st
      cases q with
      | nil => rw [run_next_nil] at hr; rw [run_next_nil]; exact hr
      | cons h rest =>
        rw [run_next_cons] at hr
        rw [run_next_cons]
        cases ab with
        | true => simpa using hr
        | false =>
          simp only [if_false, Bool.false_eq_true] at hr ⊢
          cases hd : run f (.disp h) ⟨lg, cl, rest, false, ix⟩ with
          | none => rw [hd] at hr; simp at hr
          | some p =>
            obtain ⟨st2, e2⟩ := p
            rw [hd] at hr
            rw [ih _ _ _ hd]
            cases e2 with
            | some e => exact hr
            | none => exact ih _ _ _ hr
    | disp h =>
      obtain ⟨lg, cl, q, ab, ix⟩ := st
      rw [run_disp_eq] at hr
      rw [run_disp_eq]
      cases ab with
      | true => simpa using hr
      | false =>
        simp only [if_false, Bool.false_eq_true] at hr ⊢
        cases hs : run f (.steps h.steps "") ⟨lg, cl ++ [h.name], q, false, ix + 1⟩ with
        | none => rw [hs] at hr; simp at hr
        | some p =>
          obtain ⟨st2, e2⟩ := p
          rw [hs] at hr
          rw [ih _ _ _ hs]
          cases e2 with
          | none => exact hr
          | some e =>
            cases ho : h.onError with
            | none => simp only [ho] at hr ⊢; exact hr
            | some prog => simp only [ho] at hr ⊢; exact ih _ _ _ hr
    | steps ps err =>
      cases ps with
      | nil => rw [run_steps_nil] at hr; rw [run_steps_nil]; exact hr
      | cons p rest =>
        cases p with
        | act l =>
          obtain ⟨lg, cl, q, ab, ix⟩ := st
          rw [run_steps_act] at hr; rw [run_steps_act]; exact ih _ _ _ hr
        | logError =>
          obtain ⟨lg, cl, q, ab, ix⟩ := st
          rw [run_steps_logError] at hr; rw [run_steps_logError]; exact ih _ _ _ hr
        | abortSig =>
          obtain ⟨lg, cl, q, ab, ix⟩ := st
          rw [run_steps_abortSig] at hr; rw [run_steps_abortSig]; exact ih _ _ _ hr
        | fail m => rw [run_steps_fail] at hr; rw [run_steps_fail]; exact hr
        | next =>
          rw [run_steps_next] at hr
          rw [run_steps_next]
          cases hn : run f .next st with
          | none => rw [hn] at hr; simp at hr
          | some p2 =>
            obtain ⟨st1, e1⟩ := p2
            rw [hn] at hr
            rw [ih _ _ _ hn]
            cases e1 with
            | some e => exact hr
            | none => exact ih _ _ _ hr

/-- Fuel monotonicity: a successful run stays successful with more fuel. -/
theorem runFuelMono {f g : Nat} (hle : f ≤ g) (t : ChainTask) (st : DState)
    (r : DState × Option String) (hr : run f t st = some r) : run g t st = some r := by
  induction g with
  | zero => cases Nat.le_zero.mp hle; exact hr
  | succ g ih =>
    rcases Nat.lt_or_ge f (g + 1) with hlt | hge
    · exact runSucc g t st r (ih (Nat.lt_succ_iff.mp hlt))
    · have heq : f = g + 1 := Nat.le_antisymm hle hge
      subst heq; exact hr

/-- Running a block of action steps appends their labels to the log and
then continues with the remaining program. -/
theorem runStepsActs (ls : List String) : ∀ (g : Nat) (rest : List HStep) (err : String)
    (lg cl : List String) (q : List Handler) (ab : Bool) (ix : Nat),
    run (ls.length + g) (.steps (ls.map .act ++ rest) err) ⟨lg, cl, q, ab, ix⟩ =
      run g (.steps rest err) ⟨lg ++ ls, cl, q, ab, ix⟩ := by
  induction ls with
  | nil => intro g rest err lg cl q ab ix; simp
  | cons a as ih =>
    intro g rest err lg cl q ab ix
    have hf : (a :: as).length + g = (as.length + g) + 1 := by simp [Nat.add_right_comm]
    rw [hf]
    show run ((as.length + g) + 1) (.steps (.act a :: (as.map .act ++ rest)) err)
        ⟨lg, cl, q, ab, ix⟩ = _
    rw [run_steps_act, ih]
    simp

/-- A handler program of action steps only terminates normally, appending
its labels. -/
theorem runStepsActsSome (ls : List String) (err : String) (lg cl : List String)
    (q : List Handler) (ab : Bool) (ix : Nat) :
    run (ls.length + 1) (.steps (ls.map .act) err) ⟨lg, cl, q, ab, ix⟩ =
      some (⟨lg ++ ls, cl, q, ab, ix⟩, none) := by
  have h := runStepsActs ls 1 [] err lg cl q ab ix
  simpa using h

/-- `#dispatchDispatcher` on a simple handler records the invocation,
appends its labels and advances the index. -/
theorem runDispSimple (n : String) (ls : List String) (lg cl : List String)
    (q : List Handler) (ix : Nat) :
    run (ls.length + 2) (.disp (simpleH n ls)) ⟨lg, cl, q, false, ix⟩ =
      some (⟨lg ++ ls, cl ++ [n], q, false, ix + 1⟩, none) := by
  show run ((ls.length + 1) + 1) _ _ = _
  rw [run_disp_eq]
  simp only [simpleH, Bool.false_eq_true, if_false]
  rw [runStepsActsSome]

/-- `#dispatchChainNext` consumes one simple handler off the front of the
queue and continues. -/
theorem runNextSimpleConsume (n : String) (ls : List String) (q : List Handler)
    (lg cl : List String) (ix F : Nat) (hF : ls.length + 2 ≤ F) :
    run (F + 1) .next ⟨lg, cl, simpleH n ls :: q, false, ix⟩ =
      run F .next ⟨lg ++ ls, cl ++ [n], q, false, ix + 1⟩ := by
  rw [run_next_cons]
  simp only [Bool.false_eq_true, if_false]
  rw [runFuelMono hF _ _ _ (runDispSimple n ls lg cl q ix)]

/-- Draining a block of simple handlers at the front of the queue: their
labels and names are appended in order, after which execution continues on
the remaining queue. -/
theorem runNextSimpleDrain (ds : List (String × List String)) :
    ∀ (q : List Handler) (lg cl : List String) (ix f : Nat) (r : DState × Option String),
    run f .next ⟨lg ++ labelsOf ds, cl ++ namesOf ds, q, false, ix + ds.length⟩ = some r →
    run (costOf ds + f) .next ⟨lg, cl, simpleHs ds ++ q, false, ix⟩ = some r := by
  induction ds with
  | nil =>
    intro q lg cl ix f r hr
    simpa [labelsOf, namesOf, costOf, simpleHs] using hr
  | cons p ds ih =>
    obtain ⟨n, ls⟩ := p
    intro q lg cl ix f r hr
    have hf : costOf ((n, ls) :: ds) + f = (ls.length + 2 + (costOf ds + f)) + 1 := by
      simp [costOf]; omega
    rw [hf]
    have hstep := runNextSimpleConsume n ls (simpleHs ds ++ q) lg cl ix
      (ls.length + 2 + (costOf ds + f)) (by omega)
    rw [show simpleH n ls :: (simpleHs ds ++ q) = simpleHs ((n, ls) :: ds) ++ q by
      simp [simpleHs]] at hstep
    rw [hstep]
    have hfix : ls.length + 2 + (costOf ds + f) = costOf ds + (ls.length + 2 + f) := by omega
    rw [hfix]
    apply ih
    apply runFuelMono (f := f) (by omega)
    have h1 : (lg ++ ls) ++ labelsOf ds = lg ++ labelsOf ((n, ls) :: ds) := by
      simp [labelsOf]
    have h2 : (cl ++ [n]) ++ namesOf ds = cl ++ namesOf ((n, ls) :: ds) := by
      simp [namesOf]
    have h3 : ix + 1 + ds.length = ix + ((n, ls) :: ds).length := by
      simp; omega
    rw [h1, h2, h3]
    exact hr

/-- A queue consisting only of simple handlers is drained completely:
every handler is invoked once, in order, and the chain completes. -/
theorem runNextSimpleAll (ds : List (String × List String)) (lg cl : List String) (ix : Nat) :
    run (costOf ds + 1) .next ⟨lg, cl, simpleHs ds, false, ix⟩ =
      some (⟨lg ++ labelsOf ds, cl ++ namesOf ds, [], false, ix + ds.length⟩, none) := by
  have h := runNextSimpleDrain ds [] lg cl ix 1
    (⟨lg ++ labelsOf ds, cl ++ namesOf ds, [], false, ix + ds.length⟩, none)
    (run_next_nil 0 _ _ _ _)
  simpa using h

/-- `#dispatchDispatcher` on a handler that calls `meta.chain.next()`
between its own actions: the whole downstream queue of simple handlers runs
to completion, once, between the pre and post actions of the handler. -/
theorem runDispReentrant (nm : String) (pre post : List String)
    (ds : List (String × List String)) (lg cl : List String) (ix : Nat) :
    run (pre.length + (costOf ds + post.length + 3) + 1)
      (.disp ⟨nm, pre.map .act ++ HStep.next :: post.map .act, none⟩)
      ⟨lg, cl, simpleHs ds, false, ix⟩ =
    some (⟨lg ++ pre ++ labelsOf ds ++ post, cl ++ [nm] ++ namesOf ds, [], false,
      ix + 1 + ds.length⟩, none) := by
  rw [run_disp_eq]
  simp only [Bool.false_eq_true, if_false]
  have hsteps : run (pre.length + (costOf ds + post.length + 3))
      (.steps (pre.map .act ++ HStep.next :: post.map .act) "")
      ⟨lg, cl ++ [nm], simpleHs ds, false, ix + 1⟩ =
      some (⟨lg ++ pre ++ labelsOf ds ++ post, cl ++ [nm] ++ namesOf ds, [], false,
        ix + 1 + ds.length⟩, none) := by
    rw [runStepsActs]
    show run ((costOf ds + post.length + 2) + 1) _ _ = _
    rw [run_steps_next]
    have hnext := runFuelMono (f := costOf ds + 1) (g := costOf ds + post.length + 2)
      (by omega) _ _ _ (runNextSimpleAll ds (lg ++ pre) (cl ++ [nm]) (ix + 1))
    rw [hnext]
    have hpost := runFuelMono (f := post.length + 1) (g := costOf ds + post.length + 2)
      (by omega) _ _ _
      (runStepsActsSome post "" (lg ++ pre ++ labelsOf ds) (cl ++ [nm] ++ namesOf ds)
        [] false (ix + 1 + ds.length))
    exact hpost
  rw [hsteps]

/-- A handler that throws after some actions and declares `onError`: the
error is passed to `onError` (logged here) and the dispatch step terminates
normally. -/
theorem runDispFailRecover (nm : String) (a : List String) (m : String)
    (lg cl : List String) (q : List Handler) (ix : Nat) :
    run (a.length + 4) (.disp ⟨nm, a.map .act ++ [.fail m], some [.logError]⟩)
      ⟨lg, cl, q, false, ix⟩ =
    some (⟨lg ++ a ++ [m], cl ++ [nm], q, false, ix + 1⟩, none) := by
  show run ((a.length + 3) + 1) _ _ = _
  rw [run_disp_eq]
  simp only [Bool.false_eq_true, if_false]
  have hsteps : run (a.length + 3) (.steps (a.map .act ++ [.fail m]) "")
      ⟨lg, cl ++ [nm], q, false, ix + 1⟩ =
      some (⟨lg ++ a, cl ++ [nm], q, false, ix + 1⟩, some m) := by
    rw [runStepsActs]
    exact run_steps_fail 2 m [] "" _
  rw [hsteps]
  show run (a.length + 3) (.steps [HStep.logError] m) _ = _
  rw [show a.length + 3 = (a.length + 2) + 1 by omega]
  rw [run_steps_logError]
  exact run_steps_nil _ _ _

/-- A handler that throws after some actions with no `onError`: the error
propagates out of the dispatch step. -/
theorem runDispFailRaw (nm : String) (a : List String) (m : String)
    (lg cl : List String) (q : List Handler) (ix : Nat) :
    run (a.length + 2) (.disp ⟨nm, a.map .act ++ [.fail m], none⟩)
      ⟨lg, cl, q, false, ix⟩ =
    some (⟨lg ++ a, cl ++ [nm], q, false, ix + 1⟩, some m) := by
  show run ((a.length + 1) + 1) _ _ = _
  rw [run_disp_eq]
  simp only [Bool.false_eq_true, if_false]
  have hsteps : run (a.length + 1) (.steps (a.map .act ++ [.fail m]) "")
      ⟨lg, cl ++ [nm], q, false, ix + 1⟩ =
      some (⟨lg ++ a, cl ++ [nm], q, false, ix + 1⟩, some m) := by
    rw [runStepsActs]
    exact run_steps_fail 0 m [] "" _
  rw [hsteps]

/-- Queue-consumption invariant of the chain executor: any activity leaves
the shared iterator at a suffix of the queue it started with, and the names
it appends to the invocation record form a sublist (in order, without
repetition of a queue position) of the names of the consumed front segment,
preceded for `#dispatchDispatcher` by its own handler. -/
theorem runQueueConsume (f : Nat) : ∀ (t : ChainTask) (st st' : DState) (e : Option String),
    run f t st = some (st', e) →
    ∃ k l, st'.queue = st.queue.drop k ∧ st'.called = st.called ++ l ∧
      l.Sublist (consumeAllowed t (st.queue.take k)) := by
  induction f with
  | zero => intro t st st' e hr; simp [run] at hr
  | succ f ih =>
    intro t st st' e hr
    cases t with
    | next =>
      obtain ⟨lg, cl, q, ab, ix⟩ := st
      cases q with
      | nil =>
        rw [run_next_nil] at hr
        simp only [Option.some.injEq, Prod.mk.injEq] at hr
        obtain ⟨h1, h2⟩ := hr
        subst h1
        exact ⟨0, [], by simp, by simp, by simp [consumeAllowed]⟩
      | cons h rest =>
        rw [run_next_cons] at hr
        cases ab with
        | true =>
          simp only [if_true] at hr
          simp only [Option.some.injEq, Prod.mk.injEq] at hr
          obtain ⟨h1, h2⟩ := hr
          subst h1
          exact ⟨1, [], by simp, by simp, by simp⟩
        | false =>
          simp only [Bool.false_eq_true, if_false] at hr
          cases hd : run f (.disp h) ⟨lg, cl, rest, false, ix⟩ with
          | none => rw [hd] at hr; simp at hr
          | some p =>
            obtain ⟨st2, e2⟩ := p
            rw [hd] at hr
            obtain ⟨k1, l1, hq1, hc1, hs1⟩ := ih _ _ _ _ hd
            simp only [consumeAllowed] at hs1
            cases e2 with
            | some err =>
              simp only [Option.some.injEq, Prod.mk.injEq] at hr
              obtain ⟨h1, h2⟩ := hr
              subst h1
              refine ⟨k1 + 1, l1, ?_, ?_, ?_⟩
              · simpa [List.drop_succ_cons] using hq1
              · simpa using hc1
              · simpa [consumeAllowed, List.take_succ_cons] using hs1
            | none =>
              obtain ⟨k2, l2, hq2, hc2, hs2⟩ := ih _ _ _ _ hr
              simp only [consumeAllowed] at hs2
              refine ⟨k1 + k2 + 1, l1 ++ l2, ?_, ?_, ?_⟩
              · rw [hq2, hq1]
                simp [List.drop_drop, List.drop_succ_cons]
              · rw [hc2, hc1]
                simp [List.append_assoc]
              · have hs := List.Sublist.append hs1 hs2
                rw [hq1] at hs
                simpa [consumeAllowed, List.take_succ_cons, List.take_add,
                  List.map_append, List.cons_append] using hs
    | disp h =>
      obtain ⟨lg, cl, q, ab, ix⟩ := st
      rw [run_disp_eq] at hr
      cases ab with
      | true =>
        simp only [if_true] at hr
        simp only [Option.some.injEq, Prod.mk.injEq] at hr
        obtain ⟨h1, h2⟩ := hr
        subst h1
        exact ⟨0, [], by simp, by simp, by simp⟩
      | false =>
        simp only [Bool.false_eq_true, if_false] at hr
        cases hs : run f (.steps h.steps "") ⟨lg, cl ++ [h.name], q, false, ix + 1⟩ with
        | none => rw [hs] at hr; simp at hr
        | some p =>
          obtain ⟨st2, e2⟩ := p
          rw [hs] at hr
          obtain ⟨k1, l1, hq1, hc1, hs1⟩ := ih _ _ _ _ hs
          simp only [consumeAllowed] at hs1
          cases e2 with
          | none =>
            simp only [Option.some.injEq, Prod.mk.injEq] at hr
            obtain ⟨h1, h2⟩ := hr
            subst h1
            refine ⟨k1, h.name :: l1, by simpa using hq1, by simpa using hc1, ?_⟩
            simpa [consumeAllowed] using List.Sublist.cons₂ h.name hs1
          | some err =>
            cases ho : h.onError with
            | none =>
              rw [ho] at hr
              simp only [Option.some.injEq, Prod.mk.injEq] at hr
              obtain ⟨h1, h2⟩ := hr
              subst h1
              refine ⟨k1, h.name :: l1, by simpa using hq1, by simpa using hc1, ?_⟩
              simpa [consumeAllowed] using List.Sublist.cons₂ h.name hs1
            | some prog =>
              rw [ho] at hr
              obtain ⟨k2, l2, hq2, hc2, hs2⟩ := ih _ _ _ _ hr
              simp only [consumeAllowed] at hs2
              refine ⟨k1 + k2, h.name :: (l1 ++ l2), ?_, ?_, ?_⟩
              · rw [hq2, hq1]
                simp [List.drop_drop]
              · rw [hc2, hc1]
                simp [List.append_assoc]
              · have hsub := List.Sublist.append hs1 hs2
                rw [hq1] at hsub
                have hsub2 := List.Sublist.cons₂ h.name hsub
                simpa [consumeAllowed, List.take_add, List.map_append] using hsub2
    | steps ps err =>
      cases ps with
      | nil =>
        rw [run_steps_nil] at hr
        simp only [Option.some.injEq, Prod.mk.injEq] at hr
        obtain ⟨h1, h2⟩ := hr
        subst h1
        exact ⟨0, [], by simp, by simp, by simp [consumeAllowed]⟩
      | cons p rest =>
        obtain ⟨lg, cl, q, ab, ix⟩ := st
        cases p with
        | act l =>
          rw [run_steps_act] at hr
          obtain ⟨k1, l1, hq1, hc1, hs1⟩ := ih _ _ _ _ hr
          exact ⟨k1, l1, by simpa using hq1, by simpa using hc1,
            by simpa [consumeAllowed] using hs1⟩
        | logError =>
          rw [run_steps_logError] at hr
          obtain ⟨k1, l1, hq1, hc1, hs1⟩ := ih _ _ _ _ hr
          exact ⟨k1, l1, by simpa using hq1, by simpa using hc1,
            by simpa [consumeAllowed] using hs1⟩
        | abortSig =>
          rw [run_steps_abortSig] at hr
          obtain ⟨k1, l1, hq1, hc1, hs1⟩ := ih _ _ _ _ hr
          exact ⟨k1, l1, by simpa using hq1, by simpa using hc1,
            by simpa [consumeAllowed] using hs1⟩
        | fail m =>
          rw [run_steps_fail] at hr
          simp only [Option.some.injEq, Prod.mk.injEq] at hr
          obtain ⟨h1, h2⟩ := hr
          subst h1
          exact ⟨0, [], by simp, by simp, by simp [consumeAllowed]⟩
        | next =>
          rw [run_steps_next] at hr
          cases hn : run f .next ⟨lg, cl, q, ab, ix⟩ with
          | none => rw [hn] at hr; simp at hr
          | some p2 =>
            obtain ⟨st1, e1⟩ := p2
            rw [hn] at hr
            obtain ⟨k1, l1, hq1, hc1, hs1⟩ := ih _ _ _ _ hn
            simp only [consumeAllowed] at hs1
            cases e1 with
            | some e2 =>
              simp only [Option.some.injEq, Prod.mk.injEq] at hr
              obtain ⟨h1, h2⟩ := hr
              subst h1
              exact ⟨k1, l1, by simpa using hq1, by simpa using hc1,
                by simpa [consumeAllowed] using hs1⟩
            | none =>
              obtain ⟨k2, l2, hq2, hc2, hs2⟩ := ih _ _ _ _ hr
              simp only [consumeAllowed] at hs2
              refine ⟨k1 + k2, l1 ++ l2, ?_, ?_, ?_⟩
              · rw [hq2, hq1]
                simp [List.drop_drop]
              · rw [hc2, hc1]
                simp [List.append_assoc]
              · have hsub := List.Sublist.append hs1 hs2
                rw [hq1] at hsub
                simpa [consumeAllowed, List.take_add, List.map_append] using hsub

/-! ## Claim theorems -/

/-- C1: Dispatch tests the routes in route-table insertion order, merging
parameters and middleware from every fully matching route, and stops at the
first matched route that carries a dispatcher.  With R1 (`/*/*`, middleware
M1, no dispatcher) registered first and R2 (`/test/123`, dispatcher D)
registered second, dispatching an event with condition `"/test/123"`
resolves with `meta.route.trace = ["R1", "R2"]` and executes M1 followed by
D, in that order (the log and the invocation record are
`["M1", "D"]`).  Both registrations succeed. -/
theorem c1_multi_route_accumulation_and_first_terminal_stop :
    (routerSet [] "R1" (.obj ⟨.str "/*/*", [hM1], none, [], none⟩) none).2 = none ∧
    (routerSet (routerSet [] "R1" (.obj ⟨.str "/*/*", [hM1], none, [], none⟩) none).1
      "R2" (.obj ⟨.str "/test/123", [], some hD, [], none⟩) none).2 = none ∧
    routerDispatch c1Table ⟨"/test/123", []⟩ .absent 32 =
      some (.resolved ⟨"/test/123", []⟩ ⟨[hM1], some hD, some ["R1", "R2"]⟩
        ⟨["M1", "D"], ["M1", "D"], [], false, 2⟩) :=
  ⟨rfl, rfl, by decide⟩

/-- C2: A handler that calls `context.chain.next()` during its dispatch has
every downstream handler run to completion exactly once before its
post-`next()` code executes, and the natural recursive walk after it
returns does not run any downstream handler a second time.  Parametrically:
for any handler with actions `pre`, then a `next` call, then actions
`post`, followed by any queue of simple downstream handlers, the final log
is `pre ++ downstream labels ++ post`, each downstream handler is invoked
exactly once (the invocation record is the downstream name list, in
order), and the chain ends with an empty queue and no error.  The concrete
conjunct shows the same onion ordering through a full `dispatch`:
`down-pre` runs first, the downstream handlers M1 and D run once each, and
`down-post` runs last. -/
theorem c2_chain_next_onion_order :
    (∀ (nm : String) (pre post : List String) (ds : List (String × List String))
        (lg cl : List String) (ix : Nat),
      run (pre.length + (costOf ds + post.length + 3) + 3) .next
        ⟨lg, cl, (⟨nm, pre.map .act ++ HStep.next :: post.map .act, none⟩ : Handler)
          :: simpleHs ds, false, ix⟩ =
      some (⟨lg ++ pre ++ labelsOf ds ++ post, cl ++ [nm] ++ namesOf ds, [], false,
        ix + 1 + ds.length⟩, none)) ∧
    routerDispatch c2Table ⟨"/t", []⟩ .absent 32 =
      some (.resolved ⟨"/t", []⟩ ⟨[hDown, hM1], some hD, some ["T"]⟩
        ⟨["down-pre", "M1", "D", "down-post"], ["Down", "M1", "D"], [], false, 3⟩) := by
  refine ⟨?_, by decide⟩
  intro nm pre post ds lg cl ix
  show run ((pre.length + (costOf ds + post.length + 3) + 2) + 1) .next _ = _
  rw [run_next_cons]
  simp only [Bool.false_eq_true, if_false]
  have hdisp := runFuelMono (f := pre.length + (costOf ds + post.length + 3) + 1)
    (g := pre.length + (costOf ds + post.length + 3) + 2) (by omega) _ _ _
    (runDispReentrant nm pre post ds lg cl ix)
  rw [hdisp]
  show run ((pre.length + (costOf ds + post.length + 3) + 1) + 1) .next _ = _
  exact run_next_nil _ _ _ _ _

/-- C3: When a handler in the executed chain throws: if it declares
`onError`, the error is passed to `onError` and the chain continues, so
dispatch resolves; if not, the remaining handlers do not run and dispatch
rejects with `E_ROUTER_DISPATCH_FAILED` whose cause is the original error.
Parametrically, for any simple handlers before and after a handler that
performs actions `a` and then throws `m`: with `onError` the full chain
completes (the caught error `m` is logged by `onError`, the handlers after
it all run, no error escapes); without `onError` the error `m` propagates,
the handlers after it stay on the queue uninvoked.  The concrete conjuncts
run the two cases through `dispatch`: the recovering table resolves, the
bare one rejects with cause `"boom"`. -/
theorem c3_handler_failure_onError_recovery_or_propagation :
    (∀ (nm : String) (a : List String) (m : String)
        (pres posts : List (String × List String)) (lg cl : List String) (ix : Nat),
      (run (costOf pres + (a.length + costOf posts + 7)) .next
          ⟨lg, cl, simpleHs pres ++
            (⟨nm, a.map .act ++ [.fail m], some [.logError]⟩ : Handler) :: simpleHs posts,
            false, ix⟩ =
        some (⟨lg ++ labelsOf pres ++ a ++ [m] ++ labelsOf posts,
          cl ++ namesOf pres ++ [nm] ++ namesOf posts, [], false,
          ix + pres.length + 1 + posts.length⟩, none)) ∧
      (run (costOf pres + (a.length + 3)) .next
          ⟨lg, cl, simpleHs pres ++
            (⟨nm, a.map .act ++ [.fail m], none⟩ : Handler) :: simpleHs posts,
            false, ix⟩ =
        some (⟨lg ++ labelsOf pres ++ a, cl ++ namesOf pres ++ [nm],
          simpleHs posts, false, ix + pres.length + 1⟩, some m))) ∧
    routerDispatch c3TableA ⟨"/t", []⟩ .absent 8 =
      some (.resolved ⟨"/t", []⟩ ⟨[], some hBoomRec, some ["T"]⟩
        ⟨["boom"], ["HB"], [], false, 1⟩) ∧
    routerDispatch c3TableB ⟨"/t", []⟩ .absent 8 =
      some (.rejected (.thrown "boom") ["HB"] []) := by
  refine ⟨?_, by decide, by decide⟩
  intro nm a m pres posts lg cl ix
  constructor
  · apply runNextSimpleDrain
    show run ((a.length + costOf posts + 6) + 1) .next _ = _
    rw [run_next_cons]
    simp only [Bool.false_eq_true, if_false]
    have hdisp := runFuelMono (f := a.length + 4) (g := a.length + costOf posts + 6)
      (by omega) _ _ _
      (runDispFailRecover nm a m (lg ++ labelsOf pres) (cl ++ namesOf pres)
        (simpleHs posts) (ix + pres.length))
    rw [hdisp]
    have hdrain := runFuelMono (f := costOf posts + 1) (g := a.length + costOf posts + 6)
      (by omega) _ _ _
      (runNextSimpleAll posts (lg ++ labelsOf pres ++ a ++ [m])
        (cl ++ namesOf pres ++ [nm]) (ix + pres.length + 1))
    exact hdrain
  · apply runNextSimpleDrain
    show run ((a.length + 2) + 1) .next _ = _
    rw [run_next_cons]
    simp only [Bool.false_eq_true, if_false]
    have hdisp := runDispFailRaw nm a m (lg ++ labelsOf pres) (cl ++ namesOf pres)
      (simpleHs posts) (ix + pres.length)
    rw [hdisp]

/-- C4: If the match iteration completes without any matched route
contributing a dispatcher (including when nothing matched), no handler is
invoked and dispatch rejects with `E_ROUTER_DISPATCH_FAILED` whose cause is
the `E_ROUTER_DISPATCH_NO_DISPATCHER` error carrying the trace of the
matched non-terminal route ids, or the note that nothing matched at all
(`meta.route.trace` absent).  The invocation record and log of the
rejection are empty: the chain executor never ran. -/
theorem c4_no_dispatcher_rejection : ∀ (tbl : RouteTable) (ev : Event) (fuel : Nat),
    (matchLoop tbl ev ⟨[], none, none⟩).2.dispatcher = none →
    routerDispatch tbl ev .absent fuel =
      some (.rejected (.noDispatcher
        (match (matchLoop tbl ev ⟨[], none, none⟩).2.trace with
          | some t => .matchedTrace t
          | none => .noneMatched)) [] []) := by
  intro tbl ev fuel hnone
  unfold routerDispatch
  simp only [normalizeMetaAbortion]
  rcases hml : matchLoop tbl ev ⟨[], none, none⟩ with ⟨ev1, acc⟩
  rw [hml] at hnone
  simp only at hnone
  rw [hnone]

/-- C4 witness: the table whose routes `/*` and `/:x` both match `/q` but
carry no dispatcher rejects with the `NoDispatcher` cause listing the two
matched non-terminal route ids. -/
theorem c4_no_dispatcher_rejection_witness :
    routerDispatch c4Table ⟨"/q", []⟩ .absent 5 =
      some (.rejected (.noDispatcher (.matchedTrace ["A", "B"])) [] []) := by
  have h := c4_no_dispatcher_rejection c4Table ⟨"/q", []⟩ 5 (by decide)
  exact h.trans (by decide)

/-- C5: `set(id, config)` as a total contract.  The `false` sentinel
deletes the id, idempotently and without error when the id is absent;
otherwise `set` throws `E_ROUTER_INVALID_ROUTE` exactly when the config is
not a record with a string condition or the id is already registered; a
throwing `set` leaves the table unchanged; a successful `set` appends the
compiled route under the id. -/
theorem c5_set_total_contract :
    (∀ (tbl : RouteTable) (id : String) (seps : Option String),
      routerSet tbl id .falseVal seps = (tbl.filter (fun p => !(p.1 == id)), none)) ∧
    (∀ (tbl : RouteTable) (id : String) (seps seps2 : Option String),
      (routerSet (routerSet tbl id .falseVal seps).1 id .falseVal seps2).1 =
        (routerSet tbl id .falseVal seps).1) ∧
    (∀ (tbl : RouteTable) (id : String) (seps : Option String),
      (∀ p ∈ tbl, ¬ p.1 = id) → routerSet tbl id .falseVal seps = (tbl, none)) ∧
    (∀ (tbl : RouteTable) (id : String) (input : SetInput) (seps : Option String),
      input ≠ SetInput.falseVal →
      ((routerSet tbl id input seps).2 = some RouterErr.invalidRoute ↔
        (wellFormedInput input = false ∨ tbl.any (fun p => p.1 == id) = true))) ∧
    (∀ (tbl : RouteTable) (id : String) (input : SetInput) (seps : Option String),
      (routerSet tbl id input seps).2 = some RouterErr.invalidRoute →
      (routerSet tbl id input seps).1 = tbl) ∧
    (∀ (tbl : RouteTable) (id : String) (cfg : RouteCfg) (seps : Option String) (s : String),
      cfg.condition = CondField.str s →
      tbl.any (fun p => p.1 == id) = false →
      routerSet tbl id (.obj cfg) seps =
        (tbl ++ [(id, ⟨⟨s, cfg.conditions, cfg.middleware, cfg.dispatcher⟩,
          composeRouteRegExp s (cfg.separators.orElse (fun _ => seps))⟩)], none)) := by
  refine ⟨?_, ?_, ?_, ?_, ?_, ?_⟩
  · intro tbl id seps; rfl
  · intro tbl id seps seps2
    simp [routerSet, List.filter_filter]
  · intro tbl id seps h
    simp only [routerSet, Prod.mk.injEq]
    refine ⟨List.filter_eq_self.mpr ?_, trivial⟩
    intro a ha
    simpa using h a ha
  · intro tbl id input seps hne
    cases input with
    | falseVal => exact absurd rfl hne
    | nonObject t => simp [routerSet, wellFormedInput]
    | obj cfg =>
      by_cases hdup : tbl.any (fun p => p.1 == id) = true
      · simp [routerSet, hdup, wellFormedInput]
      · simp only [Bool.not_eq_true] at hdup
        cases hcond : cfg.condition with
        | str s => simp [routerSet, hdup, hcond, wellFormedInput]
        | nonString t => simp [routerSet, hdup, hcond, wellFormedInput]
  · intro tbl id input seps herr
    cases input with
    | falseVal => simp [routerSet] at herr
    | nonObject t => rfl
    | obj cfg =>
      by_cases hdup : tbl.any (fun p => p.1 == id) = true
      · simp [routerSet, hdup]
      · simp only [Bool.not_eq_true] at hdup
        cases hcond : cfg.condition with
        | str s => simp [routerSet, hdup, hcond] at herr
        | nonString t => simp [routerSet, hdup, hcond]
  · intro tbl id cfg seps s hcond hdup
    simp [routerSet, hdup, hcond]

/-- C5 witness: registering a route whose condition is not a string fails
with `E_ROUTER_INVALID_ROUTE` on an empty table, and deleting an absent id
with the `false` sentinel succeeds without changing the table. -/
theorem c5_set_total_contract_witness :
    ((routerSet [] "x" (.obj ⟨.nonString "[object Number]", [], none, [], none⟩) none).2 =
      some RouterErr.invalidRoute) ∧
    (routerSet [] "y" .falseVal none = ([], none)) := by
  constructor
  · exact (c5_set_total_contract.2.2.2.1 [] "x"
      (.obj ⟨.nonString "[object Number]", [], none, [], none⟩)
      none (by intro h; exact SetInput.noConfusion h)).mpr (Or.inl rfl)
  · exact c5_set_total_contract.2.2.1 [] "y" none (by intro p hp; simp at hp)

/-- C6 counterexample: the claim predicts that in a wildcard segment every
character other than `*` is escaped and matched literally, so the `.` in
criteria `/a/x.z*` would have no special meaning and the subject
`/a/xQzW` would not match (`Q` differs from the literal `.`).  The code
does not escape the other characters of a wildcard segment
(`segment.replaceAll` inserts them into the regex source verbatim), so its
compiled matcher accepts `/a/xQzW`, while the matcher built from the words
of the specification (escaped variant) rejects it. -/
theorem c6_wildcard_segment_not_escaped_counterexample :
    reMatch (composeRouteRegExp "/a/x.z*" none) "/a/xQzW".data = some [] ∧
    reMatch (composeRouteRegExpSpecEscaped "/a/x.z*" none) "/a/xQzW".data = none :=
  ⟨by decide, by decide⟩

/-- C6 amended: in a segment containing `*`, each `*` is replaced by a
one-or-more non-separator match, but the other characters of the segment
are inserted into the regular expression unescaped, so regex metacharacters
such as `.` keep their special meaning (`/a/x.z*` matches both `/a/xQzW`
and `/a/x.zW`); with the default separator set the wildcard still does not
cross separators, so `/a/*` does not match `/a/b/c` while it matches
`/a/bc`. -/
theorem c6_wildcard_segment_amended :
    reMatch (composeRouteRegExp "/a/x.z*" none) "/a/xQzW".data = some [] ∧
    reMatch (composeRouteRegExp "/a/x.z*" none) "/a/x.zW".data = some [] ∧
    reMatch (composeRouteRegExp "/a/*" none) "/a/b/c".data = none ∧
    reMatch (composeRouteRegExp "/a/*" none) "/a/bc".data = some [] :=
  ⟨by decide, by decide, by decide, by decide⟩

/-- C7: the matcher compiled from `/user/:id` applied to `/user/42`
captures `{id: "42"}`, and during dispatch the named captures of every
matched route are merged into `event.param` with later matches overwriting
same-named parameters: dispatching `/u/42` against `/u/:id` (captures
`id := "42"`), then `/:id/42` (captures `id := "u"`), then the terminal
`/u/42`, resolves with `event.param = [("id", "u")]` and the full trace. -/
theorem c7_named_capture_and_param_overwrite :
    reMatch (composeRouteRegExp "/user/:id" none) "/user/42".data = some [("id", "42")] ∧
    routerDispatch c7Table ⟨"/u/42", []⟩ .absent 32 =
      some (.resolved ⟨"/u/42", [("id", "u")]⟩
        ⟨[hMa, hMb], some hD, some ["Ra", "Rb", "Rc"]⟩
        ⟨["Ma", "Mb", "D"], ["Ma", "Mb", "D"], [], false, 3⟩) :=
  ⟨by decide, by decide⟩

/-- C8: once the abortion flag is set, no further handler dispatch is
invoked in the chain: `#dispatchChainNext` on an aborted state discards the
pulled iterator element and returns normally without invoking anything;
`#dispatchDispatcher` on an aborted state skips silently; a handler already
running is not interrupted (after triggering the abortion controller its
following action still executes); and a dispatch whose supplied controller
is already aborted resolves with zero handler invocations and an empty
log. -/
theorem c8_abort_cooperative :
    (∀ (f : Nat) (lg cl : List String) (q : List Handler) (ix : Nat),
      run (f + 1) .next ⟨lg, cl, q, true, ix⟩ = some (⟨lg, cl, q.tail, true, ix⟩, none)) ∧
    (∀ (f : Nat) (h : Handler) (lg cl : List String) (q : List Handler) (ix : Nat),
      run (f + 1) (.disp h) ⟨lg, cl, q, true, ix⟩ = some (⟨lg, cl, q, true, ix⟩, none)) ∧
    (∀ (f : Nat) (rest : List HStep) (l err : String) (lg cl : List String)
        (q : List Handler) (ab : Bool) (ix : Nat),
      run (f + 2) (.steps (.abortSig :: .act l :: rest) err) ⟨lg, cl, q, ab, ix⟩ =
        run f (.steps rest err) ⟨lg ++ [l], cl, q, true, ix⟩) ∧
    routerDispatch c1Table ⟨"/test/123", []⟩ (.controller true) 32 =
      some (.resolved ⟨"/test/123", []⟩ ⟨[hM1], some hD, some ["R1", "R2"]⟩
        ⟨[], [], [hD], true, 0⟩) := by
  refine ⟨?_, ?_, ?_, by decide⟩
  · intro f lg cl q ix
    cases q with
    | nil => rw [run_next_nil]; rfl
    | cons h rest => rw [run_next_cons]; rfl
  · intro f h lg cl q ix
    rw [run_disp_eq]; rfl
  · intro f rest l err lg cl q ab ix
    show run ((f + 1) + 1) _ _ = _
    rw [run_steps_abortSig, run_steps_act]

/-- C9: when the supplied `meta.abortion` is not an `AbortController`,
`#normalizeMeta` does throw the `E_ROUTER_INVALID_META_ABORTION_TYPE`
TypeError, but the throw happens on src/index.js line 95, before the `try`
block that starts on line 97, inside an `async` promise executor: the
rejection of the executor is discarded by the `Promise` constructor, so the
promise returned by `dispatch` never settles.  For every table, event,
malformed type tag and fuel, the dispatch outcome is `hung`, never a
rejection. -/
theorem c9_malformed_abortion_promise_never_settles :
    ∀ (tbl : RouteTable) (ev : Event) (t : String) (fuel : Nat),
    routerDispatch tbl ev (.malformed t) fuel = some (.hung t) := by
  intro tbl ev t fuel
  rfl

/-- C10: within a single dispatch, every handler of the finalized chain is
invoked at most once, no matter how many times any handler calls
`context.chain.next()`: the chain state holds one shared iterator, so the
invocation record is always a sublist (order-preserving, no repetition of a
queue position) of the chain sequence, and when the chain names are
distinct each name is invoked at most once, whether the run ends normally
or with an error. -/
theorem c10_each_handler_invoked_at_most_once :
    ∀ (f : Nat) (lg : List String) (q : List Handler) (ab : Bool) (ix : Nat)
      (st' : DState) (e : Option String),
    run f .next ⟨lg, [], q, ab, ix⟩ = some (st', e) →
    st'.called.Sublist (q.map Handler.name) ∧
    ((q.map Handler.name).Nodup → ∀ n, st'.called.count n ≤ 1) := by
  intro f lg q ab ix st' e hr
  obtain ⟨k, l, hq, hc, hs⟩ := runQueueConsume f .next _ st' e hr
  simp only [consumeAllowed] at hs
  have hsub : st'.called.Sublist (q.map Handler.name) := by
    rw [hc]
    simp only [List.nil_append]
    have h1 : ((⟨lg, [], q, ab, ix⟩ : DState).queue.take k).map Handler.name =
        (q.map Handler.name).take k := by simp [List.map_take]
    rw [h1] at hs
    exact hs.trans (List.take_sublist k (q.map Handler.name))
  refine ⟨hsub, fun hnd n => ?_⟩
  exact List.nodup_iff_count_le_one.mp (List.Nodup.sublist hsub hnd) n

/-- C10 witness: the chain `[hM1, hD]` run to completion has invocation
record `["M1", "D"]`, a sublist of the chain names. -/
theorem c10_each_handler_invoked_at_most_once_witness :
    (⟨["M1", "D"], ["M1", "D"], [], false, 2⟩ : DState).called.Sublist
      ([hM1, hD].map Handler.name) :=
  (c10_each_handler_invoked_at_most_once 16 [] [hM1, hD] false 0
    ⟨["M1", "D"], ["M1", "D"], [], false, 2⟩ none (by decide)).1
